import Mathlib

set_option maxRecDepth 10000

/-!
Verification development for the `gemini-cli-agent-sdk` repository: a shallow
embedding, in Lean 4, of the bridge server (`src/server/GeminiBridge.ts`), the
streaming tag parser (`src/extras/sys-tags.ts`), the client-side stream
rectifier (`stream-utils.ts`) and the client reconstructor
(`AgentChatClient.ts`), together with theorems checking the repository's
specification claims against this embedding.

JavaScript strings are embedded as `List Char`; machine integers as `Nat`/`Int`
(no overflow is relevant at the sizes involved); wall-clock timestamps are
passed in explicitly as `Nat` arguments.
-/

namespace SysTags

/-- Capture modes of the tag parser (`SysTagCaptureMode` in
`src/extras/sys-tags.ts`). -/
inductive Mode where
  | event
  | raw
  | both
deriving DecidableEq

/-- The two recognized tag kinds (`'json' | 'block'` in the source). -/
inductive Tag where
  | json
  | block
deriving DecidableEq

/-- A structured side-channel event (`SysTagEvent` in the source).  The source
additionally stores `payload := JSON.parse(raw.trim())` (or an `error` string
when parsing fails); that field is derived from `raw` and is not itself
modelled — all theorems below compare events by kind and raw text. -/
structure SysTagEvent where
  etype : Tag
  raw : List Char
deriving DecidableEq

/-- `"<SYS_JSON>"`, the default JSON start delimiter. -/
def jsonStart : List Char := "<SYS_JSON>".toList

/-- `"</SYS_JSON>"`, the default JSON end delimiter. -/
def jsonEnd : List Char := "</SYS_JSON>".toList

/-- `"<SYS_BLOCK>"`, the default block start delimiter. -/
def blockStart : List Char := "<SYS_BLOCK>".toList

/-- `"</SYS_BLOCK>"`, the default block end delimiter. -/
def blockEnd : List Char := "</SYS_BLOCK>".toList

/-- `this.maxStartLen = Math.max(jsonStart.length, blockStart.length)`. -/
def maxStartLen : Nat := max jsonStart.length blockStart.length

/-- `String.prototype.indexOf` on char lists: the first index at which `pat`
occurs in the list, if any. -/
def findSub (pat : List Char) : List Char → Option Nat
  | [] => if pat = [] then some 0 else none
  | c :: rest =>
    if pat.isPrefixOf (c :: rest) then some 0
    else (findSub pat rest).map (· + 1)

/-- Mutable state of `SysTagParser` (`src/extras/sys-tags.ts`, with the default
tag names): the pending `buffer`, the in-tag `captureBuffer` and the currently
open tag. -/
structure ParserState where
  mode : Mode
  buffer : List Char
  captureBuffer : List Char
  activeTag : Option Tag
deriving DecidableEq

/-- A freshly constructed `SysTagParser` in the given mode. -/
def initParser (m : Mode) : ParserState := ⟨m, [], [], none⟩

/-- The `while (this.buffer.length)` loop of `SysTagParser.consume`
(`src/extras/sys-tags.ts` lines 63-130), written with explicit fuel.  Every
iteration of the source loop that does not exit consumes at least one buffered
character, so any fuel of at least `buffer.length + 1` runs the loop to
completion; `consume` below supplies exactly that. -/
def consumeLoop : Nat → ParserState → List Char → List SysTagEvent →
    ParserState × List Char × List SysTagEvent
  | 0, st, out, evs => (st, out, evs)
  | fuel + 1, st, out, evs =>
    if st.buffer = [] then (st, out, evs)
    else
      match st.activeTag with
      | none =>
        let jsonIdx := findSub jsonStart st.buffer
        let blockIdx := findSub blockStart st.buffer
        let next : Option (Nat × Tag) :=
          match jsonIdx, blockIdx with
          | some j, some b => if j < b then some (j, Tag.json) else some (b, Tag.block)
          | some j, none => some (j, Tag.json)
          | none, some b => some (b, Tag.block)
          | none, none => none
        match next with
        | none =>
          if st.buffer.length < maxStartLen then (st, out, evs)
          else
            let safeCut := st.buffer.length - (maxStartLen - 1)
            ({ st with buffer := st.buffer.drop safeCut },
              out ++ st.buffer.take safeCut, evs)
        | some (i, t) =>
          let out1 := out ++ st.buffer.take i
          let buf := st.buffer.drop i
          if t = Tag.json ∧ jsonStart.isPrefixOf buf = true then
            consumeLoop fuel
              { st with
                buffer := buf.drop jsonStart.length
                activeTag := some Tag.json
                captureBuffer := [] } out1 evs
          else if t = Tag.block ∧ blockStart.isPrefixOf buf = true then
            consumeLoop fuel
              { st with
                buffer := buf.drop blockStart.length
                activeTag := some Tag.block
                captureBuffer := [] } out1 evs
          else
            consumeLoop fuel { st with buffer := buf.drop 1 }
              (out1 ++ buf.take 1) evs
      | some t =>
        let endTag := if t = Tag.json then jsonEnd else blockEnd
        match findSub endTag st.buffer with
        | none =>
          ({ st with
              captureBuffer := st.captureBuffer ++ st.buffer
              buffer := [] },
            out, evs)
        | some e =>
          let raw := st.captureBuffer ++ st.buffer.take e
          consumeLoop fuel
            { st with
              buffer := st.buffer.drop (e + endTag.length)
              captureBuffer := []
              activeTag := none }
            out (evs ++ [⟨t, raw⟩])

/-- `SysTagParser.consume` (`src/extras/sys-tags.ts` lines 54-133): in `raw`
mode the chunk passes through untouched; otherwise the chunk is appended to the
buffer and the loop above runs.  Returns the new parser state, the emitted text
output and the emitted events, in order. -/
def consume (st : ParserState) (chunk : List Char) :
    ParserState × List Char × List SysTagEvent :=
  if st.mode = Mode.raw then (st, chunk, [])
  else
    let buf := st.buffer ++ chunk
    consumeLoop (buf.length + 1) { st with buffer := buf } [] []

/-- Feed a sequence of chunks to the parser in order, concatenating the text
outputs and the event sequences. -/
def feed (st : ParserState) : List (List Char) →
    ParserState × List Char × List SysTagEvent
  | [] => (st, [], [])
  | c :: cs =>
    let r1 := consume st c
    let r2 := feed r1.1 cs
    (r2.1, r1.2.1 ++ r2.2.1, r1.2.2 ++ r2.2.2)

end SysTags

namespace StreamUtils

/-- The backward-scanning overlap loop of `extractNewStreamSegment`
(`stream-utils.ts`): for `overlap = k, k-1, …, 1`, if the last `overlap`
characters of `previous` equal the first `overlap` characters of `incoming`,
return the remainder of `incoming`; if no positive overlap matches, return
`incoming` whole. -/
def overlapScan (previous incoming : List Char) : Nat → List Char
  | 0 => incoming
  | k + 1 =>
    if previous.drop (previous.length - (k + 1)) = incoming.take (k + 1) then
      incoming.drop (k + 1)
    else overlapScan previous incoming k

/-- `extractNewStreamSegment(previous, incoming)` from `stream-utils.ts`
(lines 218-251): the new unique segment of an incoming stream chunk relative to
the already-accumulated text.  The source's contained-in-`previous` branch
returns the empty string both when `previous` ends with `incoming` and
otherwise, so the two sub-branches are a single branch here. -/
def extractNewStreamSegment (previous incoming : List Char) : List Char :=
  if incoming = [] then []
  else if previous = [] then incoming
  else if incoming = previous then []
  else if incoming.length ≤ previous.length ∧ incoming <:+: previous then []
  else if previous.isPrefixOf incoming = true then incoming.drop previous.length
  else if incoming.isSuffixOf previous = true then []
  else overlapScan previous incoming (min previous.length (incoming.length - 1))

end StreamUtils

namespace AgentClient

open StreamUtils

/-- `HiddenMode` from `src/common/types.ts`. -/
inductive HiddenMode where
  | none
  | user
  | assistant
  | turn
deriving DecidableEq

/-- A client-side message identifier.  `makeId` in `AgentChatClient.ts` builds
the string `"<label>-<now><nonce>-<counter>"`; the three components are kept
structurally (the replay nonce is absent on the live path modelled here). -/
structure MsgId where
  label : String
  ts : Nat
  counter : Nat
deriving DecidableEq

/-- `ToolStatus` from `src/common/types.ts`. -/
inductive ToolStatus where
  | queued
  | running
  | completed
  | failed
  | cancelled
deriving DecidableEq

/-- `ToolCall` from `src/common/types.ts`, restricted to the fields the
modelled code paths touch (the title-parsing decorations `args`, `input`,
`description`, `workingDir`, and the `result`/`diff` accumulators belong to the
tool-update path, which is outside the scope of this embedding). -/
structure ToolCall where
  id : List Char
  name : List Char
  title : List Char
  status : ToolStatus
  ts : Nat
deriving DecidableEq

/-- `MessageContentPart` from `src/common/types.ts`. -/
inductive MessageContentPart where
  | text (text : List Char)
  | thought (thought : List Char)
  | toolCall (call : ToolCall)
deriving DecidableEq

/-- `AssistantMessage` from `src/common/types.ts` (lines 157-167).  The
interface declares exactly `id`, `role` (the fixed string `'assistant'`),
`thought`, `text`, `content`, `toolCalls`, `stopReason?`, `hidden?`, `ts` —
and no `seq` field. -/
structure AssistantMessage where
  id : MsgId
  thought : List Char
  text : List Char
  content : List MessageContentPart
  toolCalls : List ToolCall
  stopReason : Option (List Char)
  hidden : Bool
  ts : Nat
deriving DecidableEq

/-- `UserMessage` from `src/common/types.ts`. -/
structure UserMessage where
  id : MsgId
  text : List Char
  hidden : Bool
  ts : Nat
deriving DecidableEq

/-- `ChatMessage = UserMessage | AssistantMessage`. -/
inductive ChatMessage where
  | user (m : UserMessage)
  | assistant (m : AssistantMessage)
deriving DecidableEq

/-- The `AgentChatClient` fields touched by the notification-handling path
(`AgentChatClient.ts`): the conversation, turn bookkeeping and id counter. -/
structure ClientState where
  messages : List ChatMessage
  inTurn : Bool
  activeAssistantId : Option MsgId
  lastFinalizedAssistantId : Option MsgId
  currentTurnHidden : HiddenMode
  idCounter : Nat
deriving DecidableEq

/-- A fresh client (constructor state). -/
def initClient : ClientState :=
  ⟨[], false, Option.none, Option.none, HiddenMode.none, 0⟩

/-- One `this.emit(name, payload)` call made by the client toward the host
application.  Each constructor's arguments are exactly the fields of the single
payload object passed by the source at the corresponding emit site; no second
argument and no `seq` or receive-timestamp field exists anywhere in
`AgentChatClient.ts`. -/
inductive Emit where
  | message (m : ChatMessage)
  | messageUpdate (m : ChatMessage)
  | textDelta (messageId : MsgId) (delta : List Char) (text : List Char)
  | assistantTextDelta (messageId : MsgId) (delta : List Char) (text : List Char)
  | thoughtDelta (messageId : MsgId) (delta : List Char) (thought : List Char)
  | assistantThoughtDelta (messageId : MsgId) (delta : List Char) (thought : List Char)
  | turnCompleted (stopReason : Option (List Char))
  | assistantTextFinal (messageId : MsgId) (text : List Char)
deriving DecidableEq

/-- `shouldEmitAssistant` (`AgentChatClient.ts`): assistant-side events are
surfaced for hidden modes `none` and `user` only. -/
def shouldEmitAssistant : HiddenMode → Bool
  | HiddenMode.none => true
  | HiddenMode.user => true
  | _ => false

/-- Replace the last message of the conversation (the source mutates the
object returned by `getOrCreateAssistantMessage` in place). -/
def setLast (st : ClientState) (m : AssistantMessage) : ClientState :=
  { st with messages := st.messages.dropLast ++ [ChatMessage.assistant m] }

/-- `getOrCreateAssistantMessage` (`AgentChatClient.ts` lines 445-465): reuse
the trailing assistant message, or append a fresh empty one (emitting
`message` when the hidden mode allows) and remember it as the active assistant
message of the current turn. -/
def getOrCreateAssistantMessage (st : ClientState) (now : Nat) :
    ClientState × AssistantMessage × List Emit :=
  match st.messages.getLast? with
  | some (ChatMessage.assistant m) => (st, m, [])
  | _ =>
    let cnt := st.idCounter + 1
    let hiddenFlag :=
      st.currentTurnHidden = HiddenMode.assistant ∨ st.currentTurnHidden = HiddenMode.turn
    let m : AssistantMessage :=
      { id := ⟨"assistant", now, cnt⟩
        thought := []
        text := []
        content := []
        toolCalls := []
        stopReason := Option.none
        hidden := decide hiddenFlag
        ts := now }
    let st1 : ClientState :=
      { st with
        messages := st.messages ++ [ChatMessage.assistant m]
        idCounter := cnt
        activeAssistantId := if st.inTurn then some m.id else st.activeAssistantId }
    let emits := if shouldEmitAssistant st.currentTurnHidden then
        [Emit.message (ChatMessage.assistant m)] else []
    (st1, m, emits)

/-- The thought half of `updateAssistantMessageNormalized`
(`AgentChatClient.ts` lines 309-332): open-or-extend the current thought part,
rectify the chunk against that part, append the new segment to the part and to
the flat accumulator, and emit the delta events. -/
def applyThoughtChunk (st : ClientState) (m : AssistantMessage) (chunk : List Char) :
    ClientState × AssistantMessage × List Emit :=
  let content1 :=
    match m.content.getLast? with
    | some (MessageContentPart.thought _) => m.content
    | _ => m.content ++ [MessageContentPart.thought []]
  let cur :=
    match content1.getLast? with
    | some (MessageContentPart.thought th) => th
    | _ => []
  let seg := extractNewStreamSegment cur chunk
  if seg = [] then
    let m1 := { m with content := content1 }
    (setLast st m1, m1, [])
  else
    let m1 : AssistantMessage :=
      { m with
        content := content1.dropLast ++ [MessageContentPart.thought (cur ++ seg)]
        thought := m.thought ++ seg }
    let emits := if shouldEmitAssistant st.currentTurnHidden then
        [Emit.thoughtDelta m1.id seg m1.thought,
         Emit.assistantThoughtDelta m1.id seg m1.thought,
         Emit.messageUpdate (ChatMessage.assistant m1)] else []
    (setLast st m1, m1, emits)

/-- The text half of `updateAssistantMessageNormalized`
(`AgentChatClient.ts` lines 334-360): same shape as the thought half, over the
current text part and the flat `text` accumulator. -/
def applyTextChunk (st : ClientState) (m : AssistantMessage) (chunk : List Char) :
    ClientState × AssistantMessage × List Emit :=
  let content1 :=
    match m.content.getLast? with
    | some (MessageContentPart.text _) => m.content
    | _ => m.content ++ [MessageContentPart.text []]
  let cur :=
    match content1.getLast? with
    | some (MessageContentPart.text tx) => tx
    | _ => []
  let seg := extractNewStreamSegment cur chunk
  if seg = [] then
    let m1 := { m with content := content1 }
    (setLast st m1, m1, [])
  else
    let m1 : AssistantMessage :=
      { m with
        content := content1.dropLast ++ [MessageContentPart.text (cur ++ seg)]
        text := m.text ++ seg }
    let emits := if shouldEmitAssistant st.currentTurnHidden then
        [Emit.textDelta m1.id seg m1.text,
         Emit.assistantTextDelta m1.id seg m1.text,
         Emit.messageUpdate (ChatMessage.assistant m1)] else []
    (setLast st m1, m1, emits)

/-- `updateAssistantMessageNormalized(delta)` (`AgentChatClient.ts` lines
305-361): get or create the trailing assistant message, then process
`delta.thought` and `delta.text` in that order; a missing or empty string is
falsy in the source and skips its half. -/
def updateAssistantMessageNormalized (st : ClientState) (now : Nat)
    (deltaThought deltaText : Option (List Char)) : ClientState × List Emit :=
  let r0 := getOrCreateAssistantMessage st now
  let r1 :=
    match deltaThought with
    | some t => if t = [] then (r0.1, r0.2.1, ([] : List Emit))
                else applyThoughtChunk r0.1 r0.2.1 t
    | Option.none => (r0.1, r0.2.1, [])
  let r2 :=
    match deltaText with
    | some t => if t = [] then (r1.1, r1.2.1, ([] : List Emit))
                else applyTextChunk r1.1 r1.2.1 t
    | Option.none => (r1.1, r1.2.1, [])
  (r2.1, r0.2.2 ++ r1.2.2 ++ r2.2.2)

/-- The `session/update` payloads covered by this embedding
(`AcpSessionUpdateNotification` in `src/common/types.ts`); the tool-call
updates drive a separate lifecycle that none of the checked claims depend on.
-/
inductive SessionUpdate where
  | agentMessageChunk (text : Option (List Char))
  | agentThoughtChunk (text : Option (List Char))
  | endOfTurn (stopReason : Option (List Char))
deriving DecidableEq

/-- `handleSessionUpdate` (`AgentChatClient.ts` lines 271-303) on the chunk and
end-of-turn updates. -/
def handleSessionUpdate (st : ClientState) (now : Nat) :
    SessionUpdate → ClientState × List Emit
  | SessionUpdate.agentMessageChunk txt =>
    updateAssistantMessageNormalized st now Option.none txt
  | SessionUpdate.agentThoughtChunk txt =>
    updateAssistantMessageNormalized st now txt Option.none
  | SessionUpdate.endOfTurn sr =>
    let e1 := if shouldEmitAssistant st.currentTurnHidden then
        [Emit.turnCompleted sr] else []
    let st1 := { st with inTurn := false }
    let r2 :=
      match st1.activeAssistantId with
      | some aid =>
        let found := st1.messages.find? fun msg =>
          match msg with
          | ChatMessage.assistant m => decide (m.id = aid)
          | _ => false
        match found with
        | some (ChatMessage.assistant m) =>
          if st1.lastFinalizedAssistantId ≠ some m.id then
            ({ st1 with lastFinalizedAssistantId := some m.id },
              if shouldEmitAssistant st1.currentTurnHidden then
                [Emit.assistantTextFinal m.id m.text] else [])
          else (st1, [])
        | _ => (st1, [])
      | Option.none => (st1, [])
    ({ r2.1 with currentTurnHidden := HiddenMode.none }, e1 ++ r2.2)

/-- A transport notification as dispatched by `setupHandlers`
(`AgentChatClient.ts` lines 222-264): `session/update` notifications reach
`handleSessionUpdate`; any other method without a `params.update` field falls
through the default branch and produces nothing. -/
inductive Notification where
  | sessionUpdate (u : SessionUpdate)
  | otherMethod
deriving DecidableEq

/-- The `'notification'` listener installed by `setupHandlers`. -/
def onNotification (st : ClientState) (now : Nat) :
    Notification → ClientState × List Emit
  | Notification.sessionUpdate u => handleSessionUpdate st now u
  | Notification.otherMethod => (st, [])

end AgentClient

namespace Bridge

/-- The `meta` object of a prompt item (`parsed.params.prompt[0].meta` in
`GeminiBridge.ts`): an optional `hidden` string plus however many other keys
the client put there (`extraKeys` is `Object.keys(meta).length` minus the
`hidden` key). -/
structure PromptMeta where
  hidden : Option (List Char)
  extraKeys : Nat
deriving DecidableEq

/-- One element of `params.prompt` in a `session/prompt` frame. -/
structure PromptItem where
  text : List Char
  meta : Option PromptMeta
deriving DecidableEq

/-- A parsed `session/prompt` frame. -/
structure PromptFrame where
  sessionId : List Char
  items : List PromptItem
deriving DecidableEq

/-- `parsed?.params?.prompt?.[0]?.meta?.hidden`. -/
def hiddenOf (p : PromptFrame) : Option (List Char) :=
  match p.items.head? with
  | some item =>
    match item.meta with
    | some m => m.hidden
    | Option.none => Option.none
  | Option.none => Option.none

/-- A frame stored in the replay ring: either a recorded client prompt or a
stored outbound subprocess frame (identified by its method name; the rest of
the payload is opaque to the ring logic). -/
inductive StoredFrame where
  | prompt (p : PromptFrame)
  | outbound (method : List Char)
deriving DecidableEq

/-- One ring entry: `{timestamp, data: {...frame, __turnId, __hiddenMode}}`. -/
structure HistEntry where
  timestamp : Nat
  turnId : Nat
  hiddenMode : Option (List Char)
  data : StoredFrame
deriving DecidableEq

/-- `this.MAX_HISTORY_SIZE = 2000`. -/
def MAX_HISTORY_SIZE : Nat := 2000

/-- The `GeminiBridge` fields driven by the modelled paths
(`src/server/GeminiBridge.ts`): the turn counter, the replay ring, the
per-turn hidden-mode table, the session id and the auth gate, plus whether the
subprocess is currently alive (`this.geminiProcess !== null`). -/
structure BridgeState where
  turnId : Nat
  history : List HistEntry
  turnHiddenModes : List (Nat × List Char)
  acpSessionId : Option (List Char)
  isAuthPending : Bool
  pendingAuthUrl : Option (List Char)
  processAlive : Bool
deriving DecidableEq

/-- Bridge state right after construction and a successful first spawn. -/
def initialBridge : BridgeState :=
  ⟨0, [], [], Option.none, false, Option.none, true⟩

/-- `history.push(e); if (history.length > MAX_HISTORY_SIZE) history.shift()`. -/
def pushCapped (h : List HistEntry) (e : HistEntry) : List HistEntry :=
  let h1 := h ++ [e]
  if MAX_HISTORY_SIZE < h1.length then h1.tail else h1

/-- `this.turnHiddenModes.get(k)` on the assoc-list model of the `Map`. -/
def lookupMode (l : List (Nat × List Char)) (k : Nat) : Option (List Char) :=
  (l.find? fun kv => kv.1 == k).map (·.2)

/-- One write to the subprocess's stdin: either a raw string (auth code,
`authenticate` passthrough, unparseable passthrough) or the serialized form of
a parsed frame. -/
inductive StdinWrite where
  | rawText (s : List Char)
  | promptFrame (p : PromptFrame)
  | otherFrame (s : List Char)
deriving DecidableEq

/-- A payload sent to a connected websocket client. -/
inductive WirePayload where
  | authUrl (url : List Char)
  | outbound (method : List Char)
  | bridgeReplay (timestamp : Nat) (turnId : Nat) (hiddenMode : Option (List Char))
      (data : StoredFrame)
deriving DecidableEq

/-- The externally visible effects of handling one inbound client message:
stdin writes, messages sent to clients (tagged by client id), log lines
(abbreviated), and whether the client connection was torn down. -/
structure Effects where
  stdinWrites : List StdinWrite
  clientSends : List (Nat × WirePayload)
  logs : List String
  closedConn : Bool
deriving DecidableEq

/-- The no-effect value. -/
def noEffects : Effects := ⟨[], [], [], false⟩

/-- An inbound client websocket message, after the source's `JSON.parse`
attempt: either one of the specially treated parsed frames, some other parsed
frame (kept as its serialized text), or text that failed to parse
(`unparseable`). -/
inductive ClientMsg where
  | submitAuthCode (code : Option (List Char))
  | authenticate (raw : List Char)
  | prompt (p : PromptFrame)
  | otherFrame (raw : List Char)
  | unparseable (raw : List Char)
deriving DecidableEq

/-- Strip the hidden-mode metadata from a prompt before forwarding it
(`GeminiBridge.ts` lines 416-421): when the first item's `meta.hidden` is
truthy, delete it, and delete `meta` entirely when no other keys remain. -/
def stripHiddenMeta (p : PromptFrame) : PromptFrame :=
  match p.items with
  | [] => p
  | item :: rest =>
    match item.meta with
    | some m =>
      match m.hidden with
      | some s =>
        if s = [] then p
        else
          let meta1 : Option PromptMeta :=
            if m.extraKeys = 0 then Option.none else some { m with hidden := Option.none }
          { p with items := { item with meta := meta1 } :: rest }
      | Option.none => p
    | Option.none => p

/-- The `ws.on('message')` handler of `handleConnection`
(`src/server/GeminiBridge.ts` lines 371-427).  `clients` lists the connected
client ids and `sender` identifies the originating client; the handler in the
source never sends anything to any client from this path, which is exactly
what claim C3 is about.  `now` is `Date.now()`. -/
def onClientMessage (st : BridgeState) (now : Nat) (clients : List Nat)
    (sender : Nat) (msg : ClientMsg) : BridgeState × Effects :=
  let _ := clients
  let _ := sender
  if ¬ st.processAlive then
    (st, { noEffects with logs := ["process not ready"] })
  else
    match msg with
    | ClientMsg.unparseable raw =>
      (st, { noEffects with stdinWrites := [StdinWrite.rawText raw] })
    | ClientMsg.submitAuthCode code =>
      match code with
      | some c =>
        if c = [] then (st, noEffects)
        else
          ({ st with isAuthPending := false, pendingAuthUrl := Option.none },
            { noEffects with
              stdinWrites := [StdinWrite.rawText c]
              logs := ["submitting auth code"] })
      | Option.none => (st, noEffects)
    | ClientMsg.authenticate raw =>
      ({ st with isAuthPending := true },
        { noEffects with stdinWrites := [StdinWrite.rawText raw] })
    | ClientMsg.prompt p =>
      if st.isAuthPending then
        (st, { noEffects with logs := ["blocked during pending auth"] })
      else
        let hidden := hiddenOf p
        let turn1 := st.turnId + 1
        let modes1 :=
          match hidden with
          | some s => (turn1, s) :: st.turnHiddenModes
          | Option.none => st.turnHiddenModes
        let entry : HistEntry := ⟨now, turn1, hidden, StoredFrame.prompt p⟩
        ({ st with
            turnId := turn1
            turnHiddenModes := modes1
            history := pushCapped st.history entry },
          { noEffects with stdinWrites := [StdinWrite.promptFrame (stripHiddenMeta p)] })
    | ClientMsg.otherFrame raw =>
      if st.isAuthPending then
        (st, { noEffects with logs := ["blocked during pending auth"] })
      else
        (st, { noEffects with stdinWrites := [StdinWrite.otherFrame raw] })

/-- The replay-relevance filter of `broadcastPayload`
(`src/server/GeminiBridge.ts` lines 452-456). -/
def shouldStoreMethod (m : List Char) : Bool :=
  decide (m = "session/update".toList) ||
  decide (m = "session/request_permission".toList) ||
  decide (m = "gemini/authUrl".toList) ||
  decide (m = "bridge/structured_event".toList)

/-- `broadcastPayload(data, forceStore)` (`src/server/GeminiBridge.ts` lines
450-482): store replay-relevant frames in the ring tagged with the current
turn id and its hidden mode, then send the frame to every open client.  (The
checkpoint-hook tail of the source method performs host HTTP calls and is
outside every checked claim.) -/
def broadcastPayload (st : BridgeState) (now : Nat) (clients : List Nat)
    (method : List Char) (forceStore : Bool) : BridgeState × Effects :=
  let store := forceStore || shouldStoreMethod method
  let st1 :=
    if store then
      let entry : HistEntry :=
        ⟨now, st.turnId, lookupMode st.turnHiddenModes st.turnId, StoredFrame.outbound method⟩
      { st with history := pushCapped st.history entry }
    else st
  (st1, { noEffects with
    clientSends := clients.map fun c => (c, WirePayload.outbound method) })

/-- The subprocess `close` handler (`src/server/GeminiBridge.ts` lines
233-248): the process reference, the session id and the auth gate are cleared;
nothing else — in particular not `turnId` — is touched.  (The source then
schedules `startGemini` after ~2 s when the listener is still live.) -/
def onProcessClose (st : BridgeState) : BridgeState :=
  { st with
    processAlive := false
    acpSessionId := Option.none
    isAuthPending := false }

/-- The state effect of `startGemini` on a restart (`src/server/GeminiBridge.ts`
lines 204-260): a fresh subprocess is spawned and the auth gate reset; the turn
counter is not mentioned anywhere in the method. -/
def startGemini (st : BridgeState) : BridgeState :=
  { st with processAlive := true, isAuthPending := false }

/-- The ring-relevant operations for the ring-buffer claim: an inbound client
prompt, or an outbound subprocess frame reaching `broadcastPayload` (with
`forceStore = false`, as on the live broadcast path). -/
inductive BridgeOp where
  | clientPrompt (ts : Nat) (p : PromptFrame)
  | outboundFrame (ts : Nat) (method : List Char)
deriving DecidableEq

/-- The wall-clock stamp an operation carries. -/
def opTs : BridgeOp → Nat
  | BridgeOp.clientPrompt ts _ => ts
  | BridgeOp.outboundFrame ts _ => ts

/-- Run one ring-relevant operation through the corresponding source handler
(the connected-client set is irrelevant to the ring). -/
def stepOp (st : BridgeState) : BridgeOp → BridgeState
  | BridgeOp.clientPrompt ts p => (onClientMessage st ts [] 0 (ClientMsg.prompt p)).1
  | BridgeOp.outboundFrame ts m => (broadcastPayload st ts [] m false).1

/-- Run a sequence of ring-relevant operations from a given state. -/
def runOps (st : BridgeState) : List BridgeOp → BridgeState
  | [] => st
  | op :: rest => runOps (stepOp st op) rest

/-- The entries an operation appends to the ring (before capping), used to
state the oldest-evicted-first property. -/
def stepLog (st : BridgeState) : BridgeOp → List HistEntry
  | BridgeOp.clientPrompt ts p =>
    if st.processAlive ∧ st.isAuthPending = false then
      [⟨ts, st.turnId + 1, hiddenOf p, StoredFrame.prompt p⟩]
    else []
  | BridgeOp.outboundFrame ts m =>
    if shouldStoreMethod m then
      [⟨ts, st.turnId, lookupMode st.turnHiddenModes st.turnId, StoredFrame.outbound m⟩]
    else []

/-- The uncapped append log of a run: every entry ever pushed, in order. -/
def runLog (st : BridgeState) : List BridgeOp → List HistEntry
  | [] => []
  | op :: rest => stepLog st op ++ runLog (stepOp st op) rest

end Bridge

namespace BridgeFs

/-- Split a path string on `'/'` (the segment decomposition underlying Node's
POSIX `path` functions). -/
def splitOnSlash : List Char → List (List Char)
  | [] => [[]]
  | c :: rest =>
    match splitOnSlash rest with
    | [] => [[]]
    | seg :: segs => if c = '/' then [] :: seg :: segs else (c :: seg) :: segs

/-- `path.isAbsolute` on POSIX: the path starts with `'/'`. -/
def isAbsolutePath (p : List Char) : Bool := p.head? == some '/'

/-- The normalization fold of POSIX path resolution: empty and `"."` segments
are skipped, `".."` pops the previous segment (staying put at the root, since
the resolved path is absolute), anything else is pushed.  The accumulator holds
the resolved segments in reverse. -/
def normLoop (acc : List (List Char)) : List (List Char) → List (List Char)
  | [] => acc.reverse
  | seg :: rest =>
    if seg = [] ∨ seg = ".".toList then normLoop acc rest
    else if seg = "..".toList then normLoop (acc.drop 1) rest
    else normLoop (seg :: acc) rest

/-- `path.resolve(this.projectRootReal, p)`: the canonical absolute project
root is given as its (clean) segment list; a relative `p` is resolved against
it, an absolute `p` on its own.  The result is the normalized absolute path as
a segment list. -/
def resolveSegs (root : List (List Char)) (p : List Char) : List (List Char) :=
  if isAbsolutePath p then normLoop [] (splitOnSlash p)
  else normLoop root.reverse (splitOnSlash p)

/-- Length of the longest common segment prefix of two paths. -/
def commonPrefixLen : List (List Char) → List (List Char) → Nat
  | a :: ra, b :: rb => if a = b then commonPrefixLen ra rb + 1 else 0
  | _, _ => 0

/-- `path.relative(root, abs)` for two absolute normalized paths: walk up from
`root` to the common ancestor (one `".."` per remaining root segment), then
down into `abs`. -/
def relSegs (root abs : List (List Char)) : List (List Char) :=
  let c := commonPrefixLen root abs
  List.replicate (root.length - c) "..".toList ++ abs.drop c

/-- `relative.startsWith('..')` on the joined relative string.  Normalized
segments are nonempty and contain no `'/'`, so the first two characters of the
joined string either both lie in the first segment or are that segment's
single character followed by `'/'` — in both cases the string starts with
`".."` exactly when the first segment does. -/
def relStartsDotDot (rel : List (List Char)) : Bool :=
  match rel with
  | [] => false
  | s :: _ => "..".toList.isPrefixOf s

/-- `path.isAbsolute(relative)`: the joined relative string starts with `'/'`,
i.e. its first segment is empty (never the case for normalized output; kept
for shape-faithfulness to the source's check). -/
def relIsAbsolute (rel : List (List Char)) : Bool :=
  match rel with
  | [] => false
  | s :: _ => s.head? == some '/'

/-- `safeResolveProjectPath(p)` (`src/server/GeminiBridge.ts` lines 564-576):
refuse a falsy path outright; otherwise resolve against the project root and
accept exactly when the relative form is empty, or neither starts with `".."`
nor is absolute. -/
def safeResolveProjectPath (root : List (List Char)) (p : List Char) :
    Option (List (List Char)) :=
  if p = [] then Option.none
  else
    let abs := resolveSegs root p
    let rel := relSegs root abs
    if rel = [] ∨ (relStartsDotDot rel = false ∧ relIsAbsolute rel = false) then
      some abs
    else Option.none

/-- The path resolves inside the canonical project root (the root itself
included): the root's segments are a prefix of the resolved path's. -/
def insideRoot (root abs : List (List Char)) : Prop :=
  root.isPrefixOf abs = true

instance (root abs : List (List Char)) : Decidable (insideRoot root abs) :=
  inferInstanceAs (Decidable (root.isPrefixOf abs = true))

/-- A filesystem side effect performed by a file-tool handler. -/
inductive FsEffect where
  | readFile (p : List (List Char))
  | mkdirp (p : List (List Char))
  | writeFile (p : List (List Char)) (content : List Char)
deriving DecidableEq

/-- The JSON-RPC reply a file-tool handler writes back to the subprocess:
`{result:{content}}` for reads, `{result:null}` for writes, or
`{error:{code,message}}`. -/
inductive FsResponse where
  | ok (content : Option (List Char))
  | rpcError (code : Int) (message : List Char)
deriving DecidableEq

/-- `raw.split(/\r?\n/)`: split on LF, consuming one preceding CR when
present; a CR not followed by LF is ordinary content. -/
def splitLines : List Char → List (List Char)
  | [] => [[]]
  | '\r' :: '\n' :: rest => [] :: splitLines rest
  | '\n' :: rest => [] :: splitLines rest
  | c :: rest =>
    match splitLines rest with
    | [] => [[]]
    | l :: ls => (c :: l) :: ls

/-- `lines.join('\n')`. -/
def joinNL : List (List Char) → List Char
  | [] => []
  | [l] => l
  | l :: ls => l ++ '\n' :: joinNL ls

/-- The windowing step of `handleFsRead` (`src/server/GeminiBridge.ts` lines
524-532): with no `line`/`limit` parameter the raw content passes through;
otherwise split into lines, start at `max(0, line-1)` (0 when `line` is
absent), take `max(0, limit)` lines (the rest of the file when `limit` is
absent), and re-join with `'\n'`. -/
def fsReadContent (raw : List Char) (line limit : Option Int) : List Char :=
  match line, limit with
  | Option.none, Option.none => raw
  | _, _ =>
    let lines := splitLines raw
    let start := (max 0 ((line.getD 1) - 1)).toNat
    let count : Nat :=
      match limit with
      | some m => (max 0 m).toNat
      | Option.none => lines.length - start
    joinNL ((lines.drop start).take count)

/-- The requested window of lines, as the specification claim words it:
reading starts at the 1-based line number (clamped to the first line) and
includes at most `max(0, limit)` lines, through end of file when `limit` is
absent. -/
def readWindowLines (raw : List Char) (line limit : Option Int) :
    List (List Char) :=
  let ls := splitLines raw
  let start := ((line.getD 1) - 1).toNat
  match limit with
  | some m => (ls.drop start).take (max 0 m).toNat
  | Option.none => ls.drop start

/-- The claim-worded read result: the whole content verbatim when neither
parameter is present, and the window joined with a single newline otherwise. -/
def readWindowSpec (raw : List Char) (line limit : Option Int) : List Char :=
  if line = Option.none ∧ limit = Option.none then raw
  else joinNL (readWindowLines raw line limit)

/-- `handleFsRead` (`src/server/GeminiBridge.ts` lines 511-541) over a file
system given as an assoc list from resolved paths to contents; a missing entry
is the ENOENT branch, which replies with empty content. -/
def handleFsRead (root : List (List Char))
    (fs : List (List (List Char) × List Char)) (reqPath : List Char)
    (line limit : Option Int) : FsResponse × List FsEffect :=
  match safeResolveProjectPath root reqPath with
  | Option.none => (FsResponse.rpcError (-32602) "Invalid path".toList, [])
  | some abs =>
    match (fs.find? fun kv => decide (kv.1 = abs)).map (·.2) with
    | Option.none => (FsResponse.ok (some []), [FsEffect.readFile abs])
    | some raw =>
      (FsResponse.ok (some (fsReadContent raw line limit)), [FsEffect.readFile abs])

/-- `handleFsWrite` (`src/server/GeminiBridge.ts` lines 543-562): refuse
unresolvable paths with `-32602` and no filesystem activity; otherwise create
the parent directory and write `params.content ?? ''`, replying
`{result:null}`.  (The modified-file tracking for the checkpoint hook is
orthogonal to every checked claim.) -/
def handleFsWrite (root : List (List Char)) (reqPath : List Char)
    (content : Option (List Char)) : FsResponse × List FsEffect :=
  match safeResolveProjectPath root reqPath with
  | Option.none => (FsResponse.rpcError (-32602) "Invalid path".toList, [])
  | some abs =>
    (FsResponse.ok Option.none,
      [FsEffect.mkdirp abs.dropLast, FsEffect.writeFile abs (content.getD [])])

/-- A clean path segment: nonempty, neither `"."` nor `".."`, and free of
`'/'` (true of every segment produced by splitting a path on `'/'` and kept by
`normLoop`, and of every segment of a canonical root). -/
def cleanSeg (s : List Char) : Prop :=
  s ≠ [] ∧ s ≠ ".".toList ∧ s ≠ "..".toList ∧ '/' ∉ s

instance (s : List Char) : Decidable (cleanSeg s) :=
  inferInstanceAs (Decidable (s ≠ [] ∧ s ≠ ".".toList ∧ s ≠ "..".toList ∧ '/' ∉ s))

/-- A canonical project root: every segment clean. -/
def CleanRoot (root : List (List Char)) : Prop := ∀ s ∈ root, cleanSeg s

instance (root : List (List Char)) : Decidable (CleanRoot root) :=
  inferInstanceAs (Decidable (∀ s ∈ root, cleanSeg s))

end BridgeFs

/-- C1: fed `'<SYS_JSON>{"a":1}</SYS_'` and then `'JSON>OK'`, the shipped
`SysTagParser.consume` (`src/extras/sys-tags.ts`) yields no events and no text
output on the first chunk — but also none on the second: the partial end
delimiter `'</SYS_'` was appended to the capture buffer, so the completed
delimiter never matches and the tag never closes.  The claim (and the
repository's own regression test) expects one `sys_json` event with payload
`{a:1}` and text output `'OK'` after the second chunk. -/
theorem sysTagParser_split_end_tag_loses_event :
    (let r1 := SysTags.consume (SysTags.initParser SysTags.Mode.event)
        "<SYS_JSON>\x7b\"a\":1\x7d</SYS_".toList
     let r2 := SysTags.consume r1.1 "JSON>OK".toList
     r1.2.1 = [] ∧ r1.2.2 = [] ∧
     r2.2.1 = [] ∧ r2.2.2 = [] ∧
     r2.1.activeTag = some SysTags.Tag.json ∧
     r2.1.captureBuffer = "\x7b\"a\":1\x7d</SYS_JSON>OK".toList) := by
  decide

/-- C2: the sequence of structured events emitted by the shipped
`SysTagParser.consume` is not independent of the chunk split.  For the stream
`'<SYS_JSON>{"x":1}</SYS_JSON>\n\n<SYS_JSON>{"y":2}</SYS_JSON>TAIL'` in `both`
mode, feeding it whole yields two events with raws `{"x":1}` and `{"y":2}`,
while splitting it inside the first end delimiter merges both tags into a
single event; the concatenated text outputs differ as well. -/
theorem sysTagParser_event_sequence_depends_on_split :
    (let whole :=
      "<SYS_JSON>\x7b\"x\":1\x7d</SYS_JSON>\n\n<SYS_JSON>\x7b\"y\":2\x7d</SYS_JSON>TAIL".toList
     let p0 := SysTags.initParser SysTags.Mode.both
     let unsplit := SysTags.feed p0 [whole]
     let split := SysTags.feed p0
        ["<SYS_JSON>\x7b\"x\":1\x7d</SYS_".toList,
         "JSON>\n\n<SYS_JSON>\x7b\"y\":2\x7d</SYS_JSON>TAIL".toList]
     unsplit.2.2 =
        [⟨SysTags.Tag.json, "\x7b\"x\":1\x7d".toList⟩,
         ⟨SysTags.Tag.json, "\x7b\"y\":2\x7d".toList⟩] ∧
     split.2.2 =
        [⟨SysTags.Tag.json,
          "\x7b\"x\":1\x7d</SYS_JSON>\n\n<SYS_JSON>\x7b\"y\":2\x7d".toList⟩] ∧
     unsplit.2.2 ≠ split.2.2 ∧
     unsplit.2.1 ≠ split.2.1) := by
  decide

/-- C3: when a connected client sends a `session/prompt` frame with hidden
mode `user` and the auth gate is clear, the bridge (`src/server/GeminiBridge.ts`
lines 404-423) bumps the turn counter to 1, records the frame in the ring
tagged with the new turn and hidden mode, and writes the meta-stripped frame to
the subprocess's stdin — but sends nothing to any connected client: no
`bridge/replay` peer echo exists on this path, contrary to the claim (and to
the repository's own regression test and changelog entry 0.1.4). -/
theorem geminiBridge_prompt_echoes_nothing_to_peers :
    (let p : Bridge.PromptFrame :=
      ⟨"s".toList,
       [⟨"<SYS_JSON>worker.batch</SYS_JSON>".toList,
         some ⟨some "user".toList, 0⟩⟩]⟩
     let r := Bridge.onClientMessage Bridge.initialBridge 100 [0, 1] 0
        (Bridge.ClientMsg.prompt p)
     r.2.clientSends = [] ∧
     r.1.turnId = 1 ∧
     r.1.history =
        [⟨100, 1, some "user".toList, Bridge.StoredFrame.prompt p⟩] ∧
     r.2.stdinWrites =
        [Bridge.StdinWrite.promptFrame
          ⟨"s".toList,
           [⟨"<SYS_JSON>worker.batch</SYS_JSON>".toList, Option.none⟩]⟩] ∧
     r.2.closedConn = false) := by
  decide

/-- C5 counterexample: the turn counter does not restart at 1 after the
subprocess is replaced.  After two accepted prompts (turns 1 and 2), a
subprocess exit (`close` handler) and a restart, the next accepted prompt is
tagged with turn id 3, not 1. -/
theorem geminiBridge_turnId_not_reset_after_restart_cex :
    (let p : Bridge.PromptFrame := ⟨"s".toList, [⟨"hi".toList, Option.none⟩]⟩
     let s1 := (Bridge.onClientMessage Bridge.initialBridge 1 [] 0
        (Bridge.ClientMsg.prompt p)).1
     let s2 := (Bridge.onClientMessage s1 2 [] 0 (Bridge.ClientMsg.prompt p)).1
     let s3 := Bridge.startGemini (Bridge.onProcessClose s2)
     let r4 := Bridge.onClientMessage s3 3 [] 0 (Bridge.ClientMsg.prompt p)
     r4.1.turnId = 3 ∧
     (r4.1.history.getLast?).map (fun e => e.turnId) = some 3 ∧
     ¬ (r4.1.history.getLast?).map (fun e => e.turnId) = some 1) := by
  decide

/-- C7 counterexample: an inbound client frame whose text fails JSON parsing is
not dropped by the bridge — the raw text is written to the subprocess's stdin
(`src/server/GeminiBridge.ts` lines 424-426, the `catch` branch), and nothing
is logged.  The connection is indeed not torn down. -/
theorem geminiBridge_unparseable_frame_written_to_stdin_cex :
    (let r := Bridge.onClientMessage Bridge.initialBridge 5 [0] 0
        (Bridge.ClientMsg.unparseable "oops\x7bnot json".toList)
     r.2.stdinWrites = [Bridge.StdinWrite.rawText "oops\x7bnot json".toList] ∧
     r.2.stdinWrites ≠ [] ∧
     r.2.logs = [] ∧
     r.2.closedConn = false) := by
  decide

/-- C4: the notifications the client emits for a streamed chunk carry no
sequence number and no receive timestamp.  Processing the repository test
suite's own input — a single `agent_message_chunk` notification with text
`'Hello'` on a fresh client — produces exactly a `message` emit and the three
delta/update emits, each carrying only the payload fields `messageId`, `delta`
and the accumulated text; the stored `AssistantMessage` (faithful to the
`AssistantMessage` interface of `src/common/types.ts`) has no `seq` field to
set, while the repository's test expects `lastMsg.seq = 1` after this
notification. -/
theorem agentChatClient_notifications_carry_no_seq :
    (let r := AgentClient.onNotification AgentClient.initClient 100
        (AgentClient.Notification.sessionUpdate
          (AgentClient.SessionUpdate.agentMessageChunk (some "Hello".toList)))
     let mid : AgentClient.MsgId := ⟨"assistant", 100, 1⟩
     let m0 : AgentClient.AssistantMessage :=
        ⟨mid, [], [], [], [], Option.none, false, 100⟩
     let m1 : AgentClient.AssistantMessage :=
        ⟨mid, [], "Hello".toList,
          [AgentClient.MessageContentPart.text "Hello".toList], [],
          Option.none, false, 100⟩
     r.1.messages = [AgentClient.ChatMessage.assistant m1] ∧
     r.2 =
        [AgentClient.Emit.message (AgentClient.ChatMessage.assistant m0),
         AgentClient.Emit.textDelta mid "Hello".toList "Hello".toList,
         AgentClient.Emit.assistantTextDelta mid "Hello".toList "Hello".toList,
         AgentClient.Emit.messageUpdate (AgentClient.ChatMessage.assistant m1)]) := by
  decide

/-- C9: the stream rectification laws.  For every accumulated string `P`,
every nonempty suffix `s` and every incoming chunk `I`:
`extractNewStreamSegment P P = ''` (idempotence on a resend of the whole
accumulator); `extractNewStreamSegment P (P ++ s) = s` (a pure extension
yields exactly the extension); and the caller-side update `P ++ segment` always
keeps the old accumulated text as a prefix — rectification never deletes
already-appended text. -/
theorem extractNewStreamSegment_rectification_laws (P s I : List Char)
    (h : s ≠ []) :
    StreamUtils.extractNewStreamSegment P P = []
    ∧ StreamUtils.extractNewStreamSegment P (P ++ s) = s
    ∧ P <+: P ++ StreamUtils.extractNewStreamSegment P I := by
  refine ⟨?_, ?_, List.prefix_append _ _⟩
  · by_cases hP : P = [] <;> simp [StreamUtils.extractNewStreamSegment, hP]
  · by_cases hP : P = []
    · subst hP; simp [StreamUtils.extractNewStreamSegment, h]
    · have h1 : ¬ (P ++ s = []) := by simp [hP]
      have h2 : ¬ (P ++ s = P) := by
        intro hc
        have := congrArg List.length hc
        simp only [List.length_append] at this
        exact h (List.eq_nil_of_length_eq_zero (by omega))
      have h3 : ¬ ((P ++ s).length ≤ P.length ∧ (P ++ s) <:+: P) := by
        rintro ⟨hl, -⟩
        simp only [List.length_append] at hl
        exact h (List.eq_nil_of_length_eq_zero (by omega))
      have h4 : P.isPrefixOf (P ++ s) = true :=
        List.isPrefixOf_iff_prefix.mpr (List.prefix_append P s)
      simp [StreamUtils.extractNewStreamSegment, h1, h2, h3, h4, hP,
        List.drop_left]
      exact fun hs _ => hs

/-- C9 witness: the rectification laws instantiated at `P = "He"`,
`s = "llo"`, `I = "xy"`. -/
theorem extractNewStreamSegment_rectification_laws_witness :
    "llo".toList ≠ ([] : List Char) ∧
    (StreamUtils.extractNewStreamSegment "He".toList "He".toList = []
     ∧ StreamUtils.extractNewStreamSegment "He".toList
        ("He".toList ++ "llo".toList) = "llo".toList
     ∧ "He".toList <+:
        "He".toList ++ StreamUtils.extractNewStreamSegment "He".toList "xy".toList) :=
  ⟨by decide,
   extractNewStreamSegment_rectification_laws "He".toList "llo".toList
     "xy".toList (by decide)⟩

/-- Appending to the capped ring always leaves the new entry last: the cap
evicts from the front only. -/
theorem Bridge.getLast?_pushCapped (h : List Bridge.HistEntry)
    (e : Bridge.HistEntry) : (Bridge.pushCapped h e).getLast? = some e := by
  unfold Bridge.pushCapped
  simp only []
  split
  · rename_i hlen
    cases h with
    | nil => simp [Bridge.MAX_HISTORY_SIZE] at hlen
    | cons a rest => simp [List.getLast?_concat]
  · simp [List.getLast?_concat]

/-- C5 (amended): replacing the subprocess clears the session identifier and
the auth-pending state but does not reset the turn counter — after the `close`
handler and a restart, the next accepted `session/prompt` is tagged with the
previous turn id plus one, not with 1; the turn counter is monotone for the
lifetime of the bridge object. -/
theorem geminiBridge_restart_clears_session_not_turnId
    (st : Bridge.BridgeState) (now : Nat) (p : Bridge.PromptFrame) :
    (Bridge.onProcessClose st).turnId = st.turnId
    ∧ (Bridge.onProcessClose st).acpSessionId = Option.none
    ∧ (Bridge.onProcessClose st).isAuthPending = false
    ∧ (Bridge.onClientMessage (Bridge.startGemini (Bridge.onProcessClose st))
        now [] 0 (Bridge.ClientMsg.prompt p)).1.turnId = st.turnId + 1
    ∧ ((Bridge.onClientMessage (Bridge.startGemini (Bridge.onProcessClose st))
        now [] 0 (Bridge.ClientMsg.prompt p)).1.history.getLast?).map
          (fun e => e.turnId) = some (st.turnId + 1) := by
  refine ⟨rfl, rfl, rfl, ?_, ?_⟩
  · simp [Bridge.onClientMessage, Bridge.onProcessClose, Bridge.startGemini]
  · simp [Bridge.onClientMessage, Bridge.onProcessClose, Bridge.startGemini,
      Bridge.getLast?_pushCapped]

/-- C7 (amended): an inbound client frame whose text fails JSON parsing is
forwarded verbatim — whenever the subprocess is alive, the handler writes the
raw text unchanged to the subprocess's stdin, changes no state, sends nothing
to clients, logs nothing, and does not tear the connection down. -/
theorem geminiBridge_unparseable_frame_forwarded_verbatim
    (st : Bridge.BridgeState) (now : Nat) (clients : List Nat) (sender : Nat)
    (raw : List Char) (h : st.processAlive = true) :
    Bridge.onClientMessage st now clients sender (Bridge.ClientMsg.unparseable raw)
      = (st, { Bridge.noEffects with
          stdinWrites := [Bridge.StdinWrite.rawText raw] }) := by
  simp [Bridge.onClientMessage, h]

/-- C7 witness: the forward-verbatim theorem applied to the initial bridge
state and the frame text `'oops'`. -/
theorem geminiBridge_unparseable_frame_forwarded_verbatim_witness :
    Bridge.initialBridge.processAlive = true ∧
    Bridge.onClientMessage Bridge.initialBridge 7 [0, 1] 0
        (Bridge.ClientMsg.unparseable "oops".toList)
      = (Bridge.initialBridge, { Bridge.noEffects with
          stdinWrites := [Bridge.StdinWrite.rawText "oops".toList] }) :=
  ⟨rfl, geminiBridge_unparseable_frame_forwarded_verbatim Bridge.initialBridge
    7 [0, 1] 0 "oops".toList rfl⟩


namespace Bridge

theorem pushCapped_length_le (h : List HistEntry) (e : HistEntry)
    (hl : h.length ≤ MAX_HISTORY_SIZE) :
    (pushCapped h e).length ≤ MAX_HISTORY_SIZE := by
  unfold pushCapped
  simp only []
  split
  · rename_i hlen
    simp [List.length_tail, List.length_append]
    omega
  · rename_i hlen
    simp [List.length_append] at hlen ⊢
    omega

theorem pushCapped_pairwise (R : HistEntry → HistEntry → Prop)
    (h : List HistEntry) (e : HistEntry) (hp : h.Pairwise R)
    (he : ∀ a ∈ h, R a e) : (pushCapped h e).Pairwise R := by
  have base : (h ++ [e]).Pairwise R := by
    rw [List.pairwise_append]
    exact ⟨hp, List.pairwise_singleton R e, fun a ha b hb => by
      rw [List.mem_singleton] at hb; subst hb; exact he a ha⟩
  unfold pushCapped
  simp only []
  split
  · exact base.sublist (List.tail_sublist _)
  · exact base

theorem pushCapped_suffix (h : List HistEntry) (e : HistEntry)
    (log : List HistEntry) (hs : h <:+ log) :
    pushCapped h e <:+ log ++ [e] := by
  have base : h ++ [e] <:+ log ++ [e] := by
    obtain ⟨t, ht⟩ := hs
    exact ⟨t, by rw [← ht, List.append_assoc]⟩
  unfold pushCapped
  simp only []
  split
  · exact (List.tail_suffix _).trans base
  · exact base

theorem pushCapped_subset (h : List HistEntry) (e : HistEntry) :
    ∀ a ∈ pushCapped h e, a ∈ h ++ [e] := by
  unfold pushCapped
  simp only []
  split
  · exact fun a ha => (List.tail_subset _) ha
  · exact fun a ha => ha

theorem stepLog_short (st : BridgeState) (op : BridgeOp) :
    stepLog st op = [] ∨ ∃ e, stepLog st op = [e] := by
  cases op with
  | clientPrompt ts p =>
    by_cases hA : st.processAlive <;> by_cases hP : st.isAuthPending <;>
      simp [stepLog, hA, hP]
  | outboundFrame ts m =>
    by_cases hS : shouldStoreMethod m <;> simp [stepLog, hS]

theorem stepOp_spec (st : BridgeState) (op : BridgeOp) :
    (stepOp st op).history = (stepLog st op).foldl pushCapped st.history
    ∧ st.turnId ≤ (stepOp st op).turnId
    ∧ (∀ e ∈ stepLog st op,
        e.timestamp = opTs op ∧ st.turnId ≤ e.turnId
        ∧ e.turnId ≤ (stepOp st op).turnId) := by
  cases op with
  | clientPrompt ts p =>
    by_cases hA : st.processAlive
    · by_cases hP : st.isAuthPending
      · simp [stepOp, onClientMessage, stepLog, opTs, hA, hP]
      · simp [stepOp, onClientMessage, stepLog, opTs, hA, hP]
    · simp [stepOp, onClientMessage, stepLog, opTs, hA]
  | outboundFrame ts m =>
    by_cases hS : shouldStoreMethod m
    · simp [stepOp, broadcastPayload, stepLog, opTs, hS]
    · simp [stepOp, broadcastPayload, stepLog, opTs, hS]

end Bridge

namespace Bridge

theorem runOps_ring_inv (ops : List BridgeOp) :
    ∀ (st : BridgeState) (log : List HistEntry) (b : Nat),
      st.history.length ≤ MAX_HISTORY_SIZE →
      st.history.Pairwise (fun x y => x.timestamp ≤ y.timestamp ∧ x.turnId ≤ y.turnId) →
      (∀ e ∈ st.history, e.turnId ≤ st.turnId) →
      (∀ e ∈ st.history, e.timestamp ≤ b) →
      st.history <:+ log →
      List.Chain' (· ≤ ·) (b :: ops.map opTs) →
      (runOps st ops).history.length ≤ MAX_HISTORY_SIZE
      ∧ (runOps st ops).history.Pairwise
          (fun x y => x.timestamp ≤ y.timestamp ∧ x.turnId ≤ y.turnId)
      ∧ (runOps st ops).history <:+ log ++ runLog st ops := by
  induction ops with
  | nil =>
    intro st log b h1 h2 _ _ h5 _
    simpa [runOps, runLog] using ⟨h1, h2, h5⟩
  | cons op rest ih =>
    intro st log b h1 h2 h3 h4 h5 h6
    rw [List.map_cons, List.chain'_cons] at h6
    obtain ⟨hb, hchain⟩ := h6
    obtain ⟨hhist, hturn, hlogf⟩ := stepOp_spec st op
    have hrun : runOps st (op :: rest) = runOps (stepOp st op) rest := rfl
    have hrlog : runLog st (op :: rest) = stepLog st op ++ runLog (stepOp st op) rest := rfl
    rcases stepLog_short st op with hsl | ⟨e, hsl⟩
    · have hh : (stepOp st op).history = st.history := by
        rw [hhist, hsl]; rfl
      have hres := ih (stepOp st op) log (opTs op)
        (by rw [hh]; exact h1)
        (by rw [hh]; exact h2)
        (by rw [hh]; exact fun e he => (h3 e he).trans hturn)
        (by rw [hh]; exact fun e he => (h4 e he).trans hb)
        (by rw [hh]; exact h5)
        hchain
      rw [hrun, hrlog, hsl]
      simpa using hres
    · obtain ⟨hets, hetl, hetu⟩ := hlogf e (by rw [hsl]; exact List.mem_singleton.mpr rfl)
      have hh : (stepOp st op).history = pushCapped st.history e := by
        rw [hhist, hsl]; rfl
      have hres := ih (stepOp st op) (log ++ [e]) (opTs op)
        (by rw [hh]; exact pushCapped_length_le _ _ h1)
        (by
          rw [hh]
          refine pushCapped_pairwise _ _ _ h2 fun a ha => ⟨?_, ?_⟩
          · rw [hets]; exact (h4 a ha).trans hb
          · exact (h3 a ha).trans hetl)
        (by
          rw [hh]
          intro x hx
          rcases List.mem_append.mp (pushCapped_subset _ _ x hx) with hx1 | hx1
          · exact (h3 x hx1).trans hturn
          · rw [List.mem_singleton] at hx1; subst hx1; exact hetu)
        (by
          rw [hh]
          intro x hx
          rcases List.mem_append.mp (pushCapped_subset _ _ x hx) with hx1 | hx1
          · exact (h4 x hx1).trans hb
          · rw [List.mem_singleton] at hx1; subst hx1; exact le_of_eq hets)
        (by rw [hh]; exact pushCapped_suffix _ _ _ h5)
        hchain
      rw [hrun, hrlog, hsl]
      rw [List.append_assoc] at hres
      simpa using hres

end Bridge

/-- C6: ring-buffer invariants.  Starting from a fresh bridge, after any
sequence of client prompts and broadcast subprocess frames whose wall-clock
stamps are non-decreasing, the replay ring holds at most
`MAX_HISTORY_SIZE = 2000` entries, its entries are in non-decreasing timestamp
order and non-decreasing turn-id order, and the retained entries are a suffix
of the full append log — i.e. when the bound would be exceeded the oldest
entry is evicted first. -/
theorem geminiBridge_ring_invariants (ops : List Bridge.BridgeOp)
    (hts : List.Chain' (· ≤ ·) (ops.map Bridge.opTs)) :
    (Bridge.runOps Bridge.initialBridge ops).history.length ≤ Bridge.MAX_HISTORY_SIZE
    ∧ (Bridge.runOps Bridge.initialBridge ops).history.Pairwise
        (fun x y => x.timestamp ≤ y.timestamp)
    ∧ (Bridge.runOps Bridge.initialBridge ops).history.Pairwise
        (fun x y => x.turnId ≤ y.turnId)
    ∧ (Bridge.runOps Bridge.initialBridge ops).history <:+
        Bridge.runLog Bridge.initialBridge ops := by
  have h6 : List.Chain' (· ≤ ·) ((0 : Nat) :: ops.map Bridge.opTs) := by
    cases h : ops.map Bridge.opTs with
    | nil => simp
    | cons a l => exact List.chain'_cons.mpr ⟨Nat.zero_le a, h ▸ hts⟩
  have hres := Bridge.runOps_ring_inv ops Bridge.initialBridge [] 0
    (by simp [Bridge.initialBridge, Bridge.MAX_HISTORY_SIZE])
    (by simp [Bridge.initialBridge])
    (by simp [Bridge.initialBridge])
    (by simp [Bridge.initialBridge])
    (by simp [Bridge.initialBridge])
    h6
  obtain ⟨a1, a2, a3⟩ := hres
  exact ⟨a1, a2.imp fun h => h.1, a2.imp fun h => h.2, by simpa using a3⟩

/-- C6 witness: the ring invariants applied to a concrete two-operation run —
one prompt at time 1, one stored `session/update` broadcast at time 2. -/
theorem geminiBridge_ring_invariants_witness :
    List.Chain' (· ≤ ·)
      (([Bridge.BridgeOp.clientPrompt 1 ⟨"s".toList, [⟨"hi".toList, Option.none⟩]⟩,
         Bridge.BridgeOp.outboundFrame 2 "session/update".toList]).map Bridge.opTs)
    ∧ ((Bridge.runOps Bridge.initialBridge
          [Bridge.BridgeOp.clientPrompt 1 ⟨"s".toList, [⟨"hi".toList, Option.none⟩]⟩,
           Bridge.BridgeOp.outboundFrame 2 "session/update".toList]).history.length
            ≤ Bridge.MAX_HISTORY_SIZE
       ∧ (Bridge.runOps Bridge.initialBridge
          [Bridge.BridgeOp.clientPrompt 1 ⟨"s".toList, [⟨"hi".toList, Option.none⟩]⟩,
           Bridge.BridgeOp.outboundFrame 2 "session/update".toList]).history.Pairwise
            (fun x y => x.timestamp ≤ y.timestamp)
       ∧ (Bridge.runOps Bridge.initialBridge
          [Bridge.BridgeOp.clientPrompt 1 ⟨"s".toList, [⟨"hi".toList, Option.none⟩]⟩,
           Bridge.BridgeOp.outboundFrame 2 "session/update".toList]).history.Pairwise
            (fun x y => x.turnId ≤ y.turnId)
       ∧ (Bridge.runOps Bridge.initialBridge
          [Bridge.BridgeOp.clientPrompt 1 ⟨"s".toList, [⟨"hi".toList, Option.none⟩]⟩,
           Bridge.BridgeOp.outboundFrame 2 "session/update".toList]).history <:+
          Bridge.runLog Bridge.initialBridge
          [Bridge.BridgeOp.clientPrompt 1 ⟨"s".toList, [⟨"hi".toList, Option.none⟩]⟩,
           Bridge.BridgeOp.outboundFrame 2 "session/update".toList]) :=
  ⟨by simp [Bridge.opTs, List.chain'_cons],
   geminiBridge_ring_invariants
     [Bridge.BridgeOp.clientPrompt 1 ⟨"s".toList, [⟨"hi".toList, Option.none⟩]⟩,
      Bridge.BridgeOp.outboundFrame 2 "session/update".toList]
     (by simp [Bridge.opTs, List.chain'_cons])⟩

namespace BridgeFs


theorem noSlash_splitOnSlash (p : List Char) :
    ∀ s ∈ splitOnSlash p, '/' ∉ s := by
  induction p with
  | nil => intro s hs; simp [splitOnSlash] at hs; subst hs; simp
  | cons c rest ih =>
    intro s hs
    rw [splitOnSlash] at hs
    rcases hsplit : splitOnSlash rest with - | ⟨seg, segs⟩
    · simp only [hsplit] at hs; simp at hs; subst hs; simp
    · simp only [hsplit] at hs
      by_cases hc : c = '/'
      · rw [if_pos hc] at hs
        rcases List.mem_cons.mp hs with h1 | h1
        · subst h1; simp
        · exact ih s (hsplit ▸ h1)
      · rw [if_neg hc] at hs
        rcases List.mem_cons.mp hs with h1 | h1
        · subst h1
          intro hmem
          rcases List.mem_cons.mp hmem with h2 | h2
          · exact hc h2.symm
          · exact ih seg (hsplit ▸ List.mem_cons_self seg segs) h2
        · exact ih s (hsplit ▸ List.mem_cons_of_mem seg h1)

theorem cleanSeg_normLoop (l : List (List Char)) :
    ∀ acc : List (List Char), (∀ s ∈ acc, cleanSeg s) → (∀ s ∈ l, '/' ∉ s) →
      ∀ s ∈ normLoop acc l, cleanSeg s := by
  induction l with
  | nil =>
    intro acc hacc _ s hs
    rw [normLoop] at hs
    exact hacc s (List.mem_reverse.mp hs)
  | cons seg rest ih =>
    intro acc hacc hl s hs
    rw [normLoop] at hs
    by_cases h1 : seg = [] ∨ seg = ".".toList
    · rw [if_pos h1] at hs
      exact ih acc hacc (fun t ht => hl t (List.mem_cons_of_mem seg ht)) s hs
    · rw [if_neg h1] at hs
      by_cases h2 : seg = "..".toList
      · rw [if_pos h2] at hs
        exact ih (acc.drop 1) (fun t ht => hacc t (List.drop_subset 1 acc ht))
          (fun t ht => hl t (List.mem_cons_of_mem seg ht)) s hs
      · rw [if_neg h2] at hs
        refine ih (seg :: acc) ?_ (fun t ht => hl t (List.mem_cons_of_mem seg ht)) s hs
        intro t ht
        rcases List.mem_cons.mp ht with h3 | h3
        · subst h3
          push_neg at h1
          exact ⟨h1.1, h1.2, h2, hl t (List.mem_cons_self _ _)⟩
        · exact hacc t h3

theorem cleanSeg_resolveSegs (root : List (List Char)) (p : List Char)
    (hR : CleanRoot root) : ∀ s ∈ resolveSegs root p, cleanSeg s := by
  unfold resolveSegs
  split
  · exact cleanSeg_normLoop _ [] (by simp) (noSlash_splitOnSlash p)
  · refine cleanSeg_normLoop _ root.reverse ?_ (noSlash_splitOnSlash p)
    intro s hs
    exact hR s (List.mem_reverse.mp hs)

theorem commonPrefixLen_eq_length_iff (R A : List (List Char)) :
    commonPrefixLen R A = R.length ↔ R <+: A := by
  induction R generalizing A with
  | nil => simp [commonPrefixLen]
  | cons r R ih =>
    cases A with
    | nil => simp [commonPrefixLen]
    | cons a A =>
      rw [commonPrefixLen]
      by_cases hr : r = a
      · rw [if_pos hr]
        subst hr
        simp only [List.length_cons, Nat.add_left_inj, List.cons_prefix_cons]
        rw [ih A]
        simp
      · rw [if_neg hr]
        simp only [List.length_cons, List.cons_prefix_cons]
        constructor
        · intro h; omega
        · rintro ⟨he, -⟩; exact absurd he hr

theorem commonPrefixLen_le_length (R A : List (List Char)) :
    commonPrefixLen R A ≤ R.length := by
  induction R generalizing A with
  | nil => simp [commonPrefixLen]
  | cons r R ih =>
    cases A with
    | nil => simp [commonPrefixLen]
    | cons a A =>
      rw [commonPrefixLen]
      split
      · simpa using ih A
      · simp

theorem relSegs_of_prefix (R A : List (List Char)) (h : R <+: A) :
    relSegs R A = A.drop R.length := by
  unfold relSegs
  rw [(commonPrefixLen_eq_length_iff R A).mpr h]
  simp

theorem relSegs_head_dotdot (R A : List (List Char)) (h : ¬ R <+: A) :
    ∃ rest, relSegs R A = "..".toList :: rest := by
  unfold relSegs
  have hlt : commonPrefixLen R A < R.length :=
    lt_of_le_of_ne (commonPrefixLen_le_length R A)
      (fun he => h ((commonPrefixLen_eq_length_iff R A).mp he))
  obtain ⟨k, hk⟩ : ∃ k, R.length - commonPrefixLen R A = k + 1 :=
    ⟨R.length - commonPrefixLen R A - 1, by omega⟩
  refine ⟨List.replicate k "..".toList ++ A.drop (commonPrefixLen R A), ?_⟩
  simp only [relSegs]
  rw [hk, List.replicate_succ]
  simp



theorem safeResolve_eq_none_of_outside (R : List (List Char)) (p : List Char)
    (h : ¬ R <+: resolveSegs R p) :
    safeResolveProjectPath R p = Option.none := by
  unfold safeResolveProjectPath
  by_cases hp : p = []
  · rw [if_pos hp]
  · rw [if_neg hp]
    obtain ⟨rest, hrel⟩ := relSegs_head_dotdot R (resolveSegs R p) h
    simp only [hrel]
    rw [if_neg]
    rintro (hnil | ⟨hdot, -⟩)
    · exact List.cons_ne_nil _ _ hnil
    · rw [show relStartsDotDot ("..".toList :: rest) = true from rfl] at hdot
      simp at hdot

theorem safeResolve_eq_some (R : List (List Char)) (p : List Char)
    (hR : CleanRoot R) (hp : p ≠ []) (hin : R <+: resolveSegs R p)
    (hdot : relStartsDotDot (relSegs R (resolveSegs R p)) = false) :
    safeResolveProjectPath R p = some (resolveSegs R p) := by
  have hrel : relSegs R (resolveSegs R p) = (resolveSegs R p).drop R.length :=
    relSegs_of_prefix _ _ hin
  unfold safeResolveProjectPath
  rw [if_neg hp]
  by_cases hnil : relSegs R (resolveSegs R p) = []
  · rw [if_pos (Or.inl hnil)]
  · have habs : relIsAbsolute (relSegs R (resolveSegs R p)) = false := by
      rcases hcons : relSegs R (resolveSegs R p) with - | ⟨s, rest⟩
      · exact absurd hcons hnil
      · have hsmem : s ∈ resolveSegs R p := by
          refine List.drop_subset R.length _ ?_
          rw [← hrel, hcons]
          exact List.mem_cons_self _ _
        have hgood := cleanSeg_resolveSegs R p hR s hsmem
        rcases s with - | ⟨c, s2⟩
        · exact absurd rfl hgood.1
        · have hc : c ≠ '/' := fun hc =>
            hgood.2.2.2 (hc ▸ List.mem_cons_self _ _)
          simp [relIsAbsolute, hc]
    rw [if_pos (Or.inr ⟨hdot, habs⟩)]



theorem fsReadContent_eq_readWindowSpec (raw : List Char) (line limit : Option Int) :
    fsReadContent raw line limit = readWindowSpec raw line limit := by
  have hmax : ∀ a : Int, (max 0 a).toNat = a.toNat := by
    intro a
    rcases le_or_lt 0 a with h | h
    · rw [max_eq_right h]
    · rw [max_eq_left h.le, Int.toNat_of_nonpos h.le, Int.toNat_zero]
  match line, limit with
  | Option.none, Option.none => rfl
  | some l, Option.none =>
    simp only [fsReadContent, readWindowSpec, readWindowLines, Option.getD]
    rw [if_neg (by simp)]
    rw [hmax]
    rw [← List.length_drop, List.take_length]
  | Option.none, some m =>
    simp only [fsReadContent, readWindowSpec, readWindowLines, Option.getD]
    rw [if_neg (by simp)]
    norm_num
  | some l, some m =>
    simp only [fsReadContent, readWindowSpec, readWindowLines, Option.getD]
    rw [if_neg (by simp)]
    simp only [hmax]

end BridgeFs

/-- C8 counterexample: a path that resolves inside the project root but is
nevertheless refused with `-32602`.  With project root `/home/proj`, the
request path `"..a"` resolves to `/home/proj/..a` — inside the root — yet
`path.relative` yields the string `"..a"`, whose first two characters are
`".."`, so `safeResolveProjectPath`'s `startsWith('..')` test rejects it and
both file tools answer `-32602` without touching the filesystem. -/
theorem safeResolveProjectPath_rejects_inroot_dotdot_name_cex :
    BridgeFs.insideRoot ["home".toList, "proj".toList]
        (BridgeFs.resolveSegs ["home".toList, "proj".toList] "..a".toList)
    ∧ BridgeFs.handleFsWrite ["home".toList, "proj".toList] "..a".toList
        (some "x".toList)
        = (BridgeFs.FsResponse.rpcError (-32602) "Invalid path".toList, [])
    ∧ BridgeFs.handleFsRead ["home".toList, "proj".toList] [] "..a".toList
        Option.none Option.none
        = (BridgeFs.FsResponse.rpcError (-32602) "Invalid path".toList, []) := by
  decide

/-- C8 (amended): the file-tool path gate.  Over any canonical project root:
an empty path, or one whose resolution lands outside the root, is answered
with JSON-RPC error `-32602` and no filesystem effect at all, for both
`fs/read_text_file` and `fs/write_text_file`; a nonempty path resolving inside
the root is accepted and serviced — unless its relative form begins with a
`".."`-prefixed first segment (e.g. a file literally named `..a`), which the
`startsWith('..')` test also refuses. -/
theorem geminiBridge_fs_path_gate (R : List (List Char)) (p : List Char)
    (c : Option (List Char)) (fs : List (List (List Char) × List Char))
    (line limit : Option Int) (hR : BridgeFs.CleanRoot R) :
    ((p = [] ∨ ¬ BridgeFs.insideRoot R (BridgeFs.resolveSegs R p)) →
      BridgeFs.handleFsWrite R p c
          = (BridgeFs.FsResponse.rpcError (-32602) "Invalid path".toList, [])
      ∧ BridgeFs.handleFsRead R fs p line limit
          = (BridgeFs.FsResponse.rpcError (-32602) "Invalid path".toList, []))
    ∧ (p ≠ [] → BridgeFs.insideRoot R (BridgeFs.resolveSegs R p) →
       BridgeFs.relStartsDotDot
          (BridgeFs.relSegs R (BridgeFs.resolveSegs R p)) = false →
      (BridgeFs.handleFsWrite R p c).1 = BridgeFs.FsResponse.ok Option.none
      ∧ (BridgeFs.handleFsWrite R p c).2
          = [BridgeFs.FsEffect.mkdirp (BridgeFs.resolveSegs R p).dropLast,
             BridgeFs.FsEffect.writeFile (BridgeFs.resolveSegs R p) (c.getD [])]
      ∧ (BridgeFs.handleFsRead R fs p line limit).2
          = [BridgeFs.FsEffect.readFile (BridgeFs.resolveSegs R p)]) := by
  constructor
  · rintro (hp | hout)
    · have hnone : BridgeFs.safeResolveProjectPath R p = Option.none := by
        unfold BridgeFs.safeResolveProjectPath
        rw [if_pos hp]
      simp [BridgeFs.handleFsWrite, BridgeFs.handleFsRead, hnone]
    · have hnone := BridgeFs.safeResolve_eq_none_of_outside R p
        (fun hpre => hout (List.isPrefixOf_iff_prefix.mpr hpre))
      simp [BridgeFs.handleFsWrite, BridgeFs.handleFsRead, hnone]
  · intro hp hin hdot
    have hsome := BridgeFs.safeResolve_eq_some R p hR hp
      (List.isPrefixOf_iff_prefix.mp hin) hdot
    refine ⟨?_, ?_, ?_⟩
    · simp [BridgeFs.handleFsWrite, hsome]
    · simp [BridgeFs.handleFsWrite, hsome]
    · rcases hfind :
        (fs.find? fun kv => decide (kv.1 = BridgeFs.resolveSegs R p)).map (·.2)
        with - | raw <;> simp [BridgeFs.handleFsRead, hsome, hfind]

/-- C8 witness: the path gate applied to the concrete root `/home/proj`, the
rejected escape `"../x"`, and the accepted in-root path `"ok.txt"`. -/
theorem geminiBridge_fs_path_gate_witness :
    BridgeFs.CleanRoot ["home".toList, "proj".toList]
    ∧ (("../x".toList = ([] : List Char)
        ∨ ¬ BridgeFs.insideRoot ["home".toList, "proj".toList]
            (BridgeFs.resolveSegs ["home".toList, "proj".toList] "../x".toList)) →
      BridgeFs.handleFsWrite ["home".toList, "proj".toList] "../x".toList
          (some "hi".toList)
          = (BridgeFs.FsResponse.rpcError (-32602) "Invalid path".toList, [])
      ∧ BridgeFs.handleFsRead ["home".toList, "proj".toList] [] "../x".toList
          Option.none Option.none
          = (BridgeFs.FsResponse.rpcError (-32602) "Invalid path".toList, []))
    ∧ (("../x".toList : List Char) ≠ []
        → BridgeFs.insideRoot ["home".toList, "proj".toList]
            (BridgeFs.resolveSegs ["home".toList, "proj".toList] "../x".toList)
        → BridgeFs.relStartsDotDot
            (BridgeFs.relSegs ["home".toList, "proj".toList]
              (BridgeFs.resolveSegs ["home".toList, "proj".toList] "../x".toList))
            = false →
      (BridgeFs.handleFsWrite ["home".toList, "proj".toList] "../x".toList
          (some "hi".toList)).1 = BridgeFs.FsResponse.ok Option.none
      ∧ (BridgeFs.handleFsWrite ["home".toList, "proj".toList] "../x".toList
          (some "hi".toList)).2
          = [BridgeFs.FsEffect.mkdirp
              (BridgeFs.resolveSegs ["home".toList, "proj".toList]
                "../x".toList).dropLast,
             BridgeFs.FsEffect.writeFile
              (BridgeFs.resolveSegs ["home".toList, "proj".toList] "../x".toList)
              ((some "hi".toList).getD [])]
      ∧ (BridgeFs.handleFsRead ["home".toList, "proj".toList] [] "../x".toList
          Option.none Option.none).2
          = [BridgeFs.FsEffect.readFile
              (BridgeFs.resolveSegs ["home".toList, "proj".toList]
                "../x".toList)]) :=
  ⟨by decide,
   (geminiBridge_fs_path_gate ["home".toList, "proj".toList] "../x".toList
     (some "hi".toList) [] Option.none Option.none (by decide)).1,
   (geminiBridge_fs_path_gate ["home".toList, "proj".toList] "../x".toList
     (some "hi".toList) [] Option.none Option.none (by decide)).2⟩

/-- C10: for an `fs/read_text_file` request that resolves to an existing
in-root file, the bridge returns exactly the requested window of the file: the
windowing step of `handleFsRead` coincides, for every content and every
`line`/`limit` combination, with the claim-worded window (lines split on CRLF
or LF, start clamped to the first line, at most `max(0, limit)` lines — through
end of file when `limit` is absent — joined with a single newline), the window
never exceeds `max(0, limit)` lines, and with neither parameter present the
content is returned verbatim. -/
theorem handleFsRead_returns_requested_window (R : List (List Char))
    (fs : List (List (List Char) × List Char)) (p : List Char)
    (abs : List (List Char)) (raw : List Char) (line limit : Option Int)
    (h1 : BridgeFs.safeResolveProjectPath R p = some abs)
    (h2 : (fs.find? fun kv => decide (kv.1 = abs)).map (·.2) = some raw) :
    BridgeFs.handleFsRead R fs p line limit
      = (BridgeFs.FsResponse.ok (some (BridgeFs.readWindowSpec raw line limit)),
         [BridgeFs.FsEffect.readFile abs])
    ∧ BridgeFs.fsReadContent raw line limit
        = BridgeFs.readWindowSpec raw line limit
    ∧ (∀ m, limit = some m →
        (BridgeFs.readWindowLines raw line limit).length ≤ (max 0 m).toNat)
    ∧ BridgeFs.readWindowSpec raw Option.none Option.none = raw := by
  refine ⟨?_, BridgeFs.fsReadContent_eq_readWindowSpec raw line limit, ?_, rfl⟩
  · simp [BridgeFs.handleFsRead, h1, h2,
      BridgeFs.fsReadContent_eq_readWindowSpec]
  · intro m hm
    subst hm
    simp only [BridgeFs.readWindowLines]
    exact List.length_take_le _ _

/-- C10 witness: reading line 2 with limit 1 from the file `/r/f.txt` with
content `"a\nb"` under root `/r` returns exactly `"b"`. -/
theorem handleFsRead_returns_requested_window_witness :
    BridgeFs.safeResolveProjectPath ["r".toList] "f.txt".toList
        = some ["r".toList, "f.txt".toList]
    ∧ ((([(["r".toList, "f.txt".toList], "a\nb".toList)]).find? fun kv =>
          decide (kv.1 = ["r".toList, "f.txt".toList])).map (·.2)
        = some "a\nb".toList
    ∧ (BridgeFs.handleFsRead ["r".toList]
        [(["r".toList, "f.txt".toList], "a\nb".toList)] "f.txt".toList
        (some 2) (some 1)
      = (BridgeFs.FsResponse.ok
          (some (BridgeFs.readWindowSpec "a\nb".toList (some 2) (some 1))),
         [BridgeFs.FsEffect.readFile ["r".toList, "f.txt".toList]])
    ∧ BridgeFs.fsReadContent "a\nb".toList (some 2) (some 1)
        = BridgeFs.readWindowSpec "a\nb".toList (some 2) (some 1)
    ∧ (∀ m, (some (1 : Int)) = some m →
        (BridgeFs.readWindowLines "a\nb".toList (some 2) (some 1)).length
          ≤ (max 0 m).toNat)
    ∧ BridgeFs.readWindowSpec "a\nb".toList Option.none Option.none
        = "a\nb".toList)) :=
  ⟨by decide, by decide,
   handleFsRead_returns_requested_window ["r".toList]
     [(["r".toList, "f.txt".toList], "a\nb".toList)] "f.txt".toList
     ["r".toList, "f.txt".toList] "a\nb".toList (some 2) (some 1)
     (by decide) (by decide)⟩
